import Mathlib

/-!
Shallow embedding of the bookmark service in `src/app.py` (Flask + SQLAlchemy).

Python strings are modelled as lists of characters (`Str`); the SQLite
database is modelled as an in-memory list of `Bookmark` records plus the
autoincrement counter.  Every route handler that the claims refer to is
embedded as a pure function from the store (and the request's parameters,
each an `Option Str` because `request.form.get` / `data.get` yields `None`
for a missing key) to an outcome together with the resulting store.
-/

set_option linter.unusedVariables false

/-- Python strings are modelled as lists of characters. -/
abbrev Str := List Char

/-- Convert a Lean string literal to the character-list model. -/
def str (s : String) : Str := s.toList

/-- Python `s.split(sep)` for a one-character separator: `"".split(',') = ['']`,
`"a,,b".split(',') = ['a','','b']`. -/
def pySplit (sep : Char) : List Char → List (List Char)
  | [] => [[]]
  | c :: cs =>
    match pySplit sep cs with
    | [] => [[c]]
    | r :: rs => if c = sep then [] :: r :: rs else (c :: r) :: rs

/-- Python `sep.join(L)` for a one-character separator. -/
def pyJoin (sep : Char) : List (List Char) → List Char
  | [] => []
  | [x] => x
  | x :: y :: xs => x ++ sep :: pyJoin sep (y :: xs)

/-- Whitespace test used by `str.strip()`. -/
def wsB (c : Char) : Bool := c.isWhitespace

/-- Python `str.lstrip()`. -/
def lstrip (l : Str) : Str := l.dropWhile wsB

/-- Python `str.rstrip()`. -/
def rstrip (l : Str) : Str := (l.reverse.dropWhile wsB).reverse

/-- Python `str.strip()`. -/
def pyStrip (l : Str) : Str := rstrip (lstrip l)

/-- Case folding, used to model SQL `ilike '%x%'`. -/
def pyLower (l : Str) : Str := l.map Char.toLower

/-- Substring containment: `strContains hay needle` models SQL
`hay LIKE '%needle%'` (SQLAlchemy `contains`) and Python `needle in hay`. -/
def strContains (hay needle : Str) : Bool :=
  needle.isPrefixOf hay ||
    match hay with
    | [] => false
    | _ :: t => strContains t needle

/-- Python truthiness of a possibly-missing string parameter:
`None` and `''` are falsy, every non-empty string is truthy. -/
def truthy : Option Str → Bool
  | some (_ :: _) => true
  | _ => false

/-- The `Bookmark` model (app.py:15-19): `tags` is the persisted
comma-encoded string, default `''`. -/
structure Bookmark where
  id : Nat
  url : Str
  title : Str
  tags : Str
deriving DecidableEq

/-- The tag decoder inside `to_dict` (app.py:26):
`self.tags.split(',') if self.tags else []`. -/
def decodeTags (t : Str) : List Str :=
  if t = [] then [] else pySplit ',' t

/-- The JSON shape produced by `Bookmark.to_dict` (app.py:21-27). -/
structure BookmarkDict where
  id : Nat
  url : Str
  title : Str
  tags : List Str
deriving DecidableEq

/-- `Bookmark.to_dict` (app.py:21-27). -/
def Bookmark.to_dict (b : Bookmark) : BookmarkDict :=
  ⟨b.id, b.url, b.title, decodeTags b.tags⟩

/-- The list comprehension `[t.strip() for t in L if t.strip()]`
(app.py:70 and app.py:90). -/
def cleanList (L : List Str) : List Str :=
  (L.filter (fun t => !(pyStrip t).isEmpty)).map pyStrip

/-- The sequence-level tag encoder `','.join([t.strip() for t in L if t.strip()])`
(app.py:70): trim each element, drop blank results, comma-join the rest. -/
def encodeTags (L : List Str) : Str := pyJoin ',' (cleanList L)

/-- app.py:70 and app.py:90 applied to the raw form string:
`','.join([t.strip() for t in tags.split(',') if t.strip()])`. -/
def cleanTagsStr (s : Str) : Str := encodeTags (pySplit ',' s)

/-- app.py:155: `','.join(data.get('tags', []))` — the JSON API joins the
request's tag list verbatim, with no trimming or filtering. -/
def apiJoinTags (L : List Str) : Str := pyJoin ',' L

/-- The database: all rows of the `bookmark` table plus the autoincrement
counter for the primary key. -/
structure Store where
  bookmarks : List Bookmark
  nextId : Nat
deriving DecidableEq

/-- The distinguishable failure outcomes of the handlers:
`validation` is the 400 / flashed "URL and Title are required!" rejection,
`notFound` is the 404 (`get_or_404` or the explicit check),
`nullViolation` is the `IntegrityError` raised at commit when a
NOT NULL column (`url` or `title`) has been assigned `None`. -/
inductive Err where
  | validation
  | notFound
  | nullViolation
deriving DecidableEq

instance exceptDecidableEq {e a : Type} [DecidableEq e] [DecidableEq a] :
    DecidableEq (Except e a) := fun x y =>
  match x, y with
  | .ok v, .ok w => if h : v = w then isTrue (by rw [h]) else isFalse (by simp [h])
  | .error v, .error w =>
    if h : v = w then isTrue (by rw [h]) else isFalse (by simp [h])
  | .ok _, .error _ => isFalse (by simp)
  | .error _, .ok _ => isFalse (by simp)

/-- `Bookmark.query.get(i)`: primary-key lookup. -/
def getById (st : Store) (i : Nat) : Option Bookmark :=
  st.bookmarks.find? (fun b => b.id == i)

/-- `api_add_bookmark` (app.py:146-159): reject when `url` or `title` is
missing or empty, else insert a row whose tag string is the raw join. -/
def api_add_bookmark (st : Store) (url? title? : Option Str)
    (tags? : Option (List Str)) : Except Err Bookmark × Store :=
  if !truthy url? || !truthy title? then (.error .validation, st)
  else
    let b : Bookmark := ⟨st.nextId, url?.getD [], title?.getD [],
      apiJoinTags (tags?.getD [])⟩
    (.ok b, ⟨st.bookmarks ++ [b], st.nextId + 1⟩)

/-- The POST branch of `add_page` (app.py:60-77): reject when `url` or
`title` is missing or empty, else insert a row with the cleaned tag string
(`tags` defaults to `''`). -/
def add_page (st : Store) (url? title? tags? : Option Str) :
    Except Err Unit × Store :=
  if !truthy url? || !truthy title? then (.error .validation, st)
  else
    let b : Bookmark := ⟨st.nextId, url?.getD [], title?.getD [],
      cleanTagsStr (tags?.getD [])⟩
    (.ok (), ⟨st.bookmarks ++ [b], st.nextId + 1⟩)

/-- The POST branch of `edit_page` (app.py:82-94): 404 when the id is
absent; otherwise it unconditionally assigns `url`, `title` (the raw form
values, `None` when the key is missing) and the cleaned form tag string.
A `None` assigned to the NOT NULL columns `url`/`title` makes the commit
raise `IntegrityError`, leaving the database unchanged. -/
def edit_page (st : Store) (i : Nat) (url? title? tags? : Option Str) :
    Except Err Unit × Store :=
  match getById st i with
  | none => (.error .notFound, st)
  | some _ =>
    match url? with
    | none => (.error .nullViolation, st)
    | some u =>
      match title? with
      | none => (.error .nullViolation, st)
      | some t =>
        (.ok (), { st with bookmarks := st.bookmarks.map (fun b =>
          if b.id == i then
            { b with url := u, title := t, tags := cleanTagsStr (tags?.getD []) }
          else b) })

/-- The GET branch of `edit_page` (app.py:84, 96): `get_or_404` then render
the record. -/
def edit_page_get (st : Store) (i : Nat) : Except Err BookmarkDict :=
  match getById st i with
  | none => .error .notFound
  | some b => .ok b.to_dict

/-- `api_delete_bookmark` (app.py:162-169). -/
def api_delete_bookmark (st : Store) (i : Nat) : Except Err Unit × Store :=
  match getById st i with
  | none => (.error .notFound, st)
  | some _ =>
    (.ok (), { st with bookmarks := st.bookmarks.filter (fun b => b.id != i) })

/-- `delete_bookmark_form` (app.py:99-105): `get_or_404` then delete. -/
def delete_bookmark_form (st : Store) (i : Nat) : Except Err Unit × Store :=
  match getById st i with
  | none => (.error .notFound, st)
  | some _ =>
    (.ok (), { st with bookmarks := st.bookmarks.filter (fun b => b.id != i) })

/-- `Bookmark.tags.contains(tag)` (app.py:121): substring match against the
raw encoded tag string. -/
def tagFilter (t : Str) (b : Bookmark) : Bool := strContains b.tags t

/-- `Bookmark.title.ilike('%title%')` (app.py:123). -/
def titleFilter (t : Str) (b : Bookmark) : Bool :=
  strContains (pyLower b.title) (pyLower t)

/-- The `db.or_` clause for `q` (app.py:125-131): tags, title or url
contains `q` case-insensitively. -/
def qFilter (q : Str) (b : Bookmark) : Bool :=
  strContains (pyLower b.tags) (pyLower q) ||
  strContains (pyLower b.title) (pyLower q) ||
  strContains (pyLower b.url) (pyLower q)

/-- The query-building part of `search_page` (app.py:114-133): `None` when
no truthy parameter is supplied, otherwise the chain of `.filter` calls. -/
def search_core (tag? title? q? : Option Str) (st : Store) :
    Option (List Bookmark) :=
  if truthy tag? || truthy title? || truthy q? then
    let q1 := st.bookmarks
    let q2 := if truthy tag? then q1.filter (tagFilter (tag?.getD [])) else q1
    let q3 := if truthy title? then q2.filter (titleFilter (title?.getD [])) else q2
    let q4 := if truthy q? then q3.filter (qFilter (q?.getD [])) else q3
    some q4
  else none

/-- `request.args.get(k)`: first value bound to the key, `None` if absent. -/
def argsGet (args : List (Str × Str)) (k : Str) : Option Str :=
  (args.find? (fun p => p.1 == k)).map (fun p => p.2)

/-- `search_page` (app.py:108-135): only the `tag`, `title` and `q` request
parameters are ever read. -/
def search_page (args : List (Str × Str)) (st : Store) :
    Option (List Bookmark) :=
  search_core (argsGet args (str "tag")) (argsGet args (str "title"))
    (argsGet args (str "q")) st

/-- One step of `tag_count[tag] = tag_count.get(tag, 0) + 1` on a Python
dict, modelled as an insertion-ordered association list. -/
def tallyInsert (m : List (Str × Nat)) (t : Str) : List (Str × Nat) :=
  match m with
  | [] => [(t, 1)]
  | (k, v) :: rest =>
    if k = t then (k, v + 1) :: rest else (k, v) :: tallyInsert rest t

/-- The tags one bookmark contributes to the tally (app.py:40-44):
skip when `bookmark.tags` is falsy, else split, strip, drop blanks. -/
def bookmarkTagList (b : Bookmark) : List Str :=
  if b.tags = [] then [] else cleanList (pySplit ',' b.tags)

/-- The `tag_count` dict after the loop in `get_tags_with_counts`. -/
def tallyStore (st : Store) : List (Str × Nat) :=
  st.bookmarks.foldl (fun m b => (bookmarkTagList b).foldl tallyInsert m) []

/-- `get_tags_with_counts` (app.py:36-46): tally, then
`sorted(..., key=lambda x: x[1], reverse=True)` — a stable sort, descending
on the count. -/
def get_tags_with_counts (st : Store) : List (Str × Nat) :=
  (tallyStore st).mergeSort (fun a b => decide (b.2 ≤ a.2))

/-- A persisted tag string with no bad segment: it is empty, or every
comma-separated segment is non-empty and already trimmed. -/
def TagStrClean (t : Str) : Prop :=
  t = [] ∨ ∀ s ∈ pySplit ',' t, s ≠ [] ∧ pyStrip s = s

/-- All tag occurrences across the store, record by record, after the
decode-trim-filter step of `get_tags_with_counts`. -/
def allTags (st : Store) : List Str :=
  (st.bookmarks.map bookmarkTagList).flatten

/-- The count held by an association list for a key (0 when absent):
`tag_count.get(t, 0)`. -/
def lookupCount (m : List (Str × Nat)) (t : Str) : Nat :=
  match m.find? (fun p => p.1 == t) with
  | some p => p.2
  | none => 0

/-- One step of collecting a key in first-encountered order: a Python dict
records a key the first time it is seen and keeps that position. -/
def seenInsert (acc : List Str) (t : Str) : List Str :=
  if t ∈ acc then acc else acc ++ [t]

/-- The distinct tags of a tag-occurrence list, each at the position of its
first occurrence. -/
def firstOccurrences (ts : List Str) : List Str :=
  ts.foldl seenInsert []

/-! ### Lemmas about the string primitives -/

theorem pySplit_ne_nil (sep : Char) (l : List Char) : pySplit sep l ≠ [] := by
  induction l with
  | nil => simp [pySplit]
  | cons c cs ih =>
    rcases h : pySplit sep cs with _ | ⟨r, rs⟩
    · exact absurd h ih
    · by_cases hc : c = sep <;> simp [pySplit, h, hc]

theorem pySplit_no_sep {sep : Char} : ∀ {l : List Char}, sep ∉ l → pySplit sep l = [l]
  | [], _ => rfl
  | c :: cs, h => by
    have hc : ¬(c = sep) := fun e => h (e ▸ List.mem_cons_self c cs)
    have ih := pySplit_no_sep (l := cs) (fun m => h (List.mem_cons_of_mem c m))
    simp [pySplit, ih, hc]

theorem pySplit_append {sep : Char} : ∀ {l1 : List Char} (l2 : List Char), sep ∉ l1 →
    pySplit sep (l1 ++ sep :: l2) = l1 :: pySplit sep l2
  | [], l2, _ => by
    rcases h : pySplit sep l2 with _ | ⟨r, rs⟩
    · exact absurd h (pySplit_ne_nil sep l2)
    · simp [pySplit, h]
  | c :: l1, l2, h => by
    have hc : ¬(c = sep) := fun e => h (e ▸ List.mem_cons_self c l1)
    have ih := @pySplit_append sep l1 l2 (fun m => h (List.mem_cons_of_mem c m))
    rw [List.cons_append, pySplit, ih]
    simp [hc]

theorem pySplit_pyJoin {sep : Char} : ∀ {L : List (List Char)}, L ≠ [] →
    (∀ s ∈ L, sep ∉ s) → pySplit sep (pyJoin sep L) = L
  | [], h, _ => absurd rfl h
  | [x], _, hs => by
    rw [pyJoin]
    exact pySplit_no_sep (hs x (by simp))
  | x :: y :: xs, _, hs => by
    rw [pyJoin, pySplit_append _ (hs x (by simp)),
      pySplit_pyJoin (by simp) (fun s m => hs s (List.mem_cons_of_mem x m))]

theorem not_mem_of_mem_pySplit {sep : Char} : ∀ {l : List Char} {s : List Char},
    s ∈ pySplit sep l → sep ∉ s
  | [], s, h => by
    simp [pySplit] at h
    simp [h]
  | c :: cs, s, h => by
    rcases hr : pySplit sep cs with _ | ⟨r, rs⟩
    · exact absurd hr (pySplit_ne_nil sep cs)
    · by_cases hc : c = sep
      · subst hc
        simp only [pySplit, hr, if_pos] at h
        rcases List.mem_cons.mp h with he | hm
        · simp [he]
        · exact not_mem_of_mem_pySplit (l := cs) (hr ▸ hm)
      · simp only [pySplit, hr, if_neg hc] at h
        rcases List.mem_cons.mp h with he | hm
        · subst he
          intro hmem
          rcases List.mem_cons.mp hmem with he2 | hm2
          · exact hc he2.symm
          · exact not_mem_of_mem_pySplit (l := cs) (hr ▸ List.mem_cons_self r rs) hm2
        · exact not_mem_of_mem_pySplit (l := cs) (hr ▸ List.mem_cons_of_mem r hm)

theorem pyJoin_cons_ne_nil {sep : Char} {x : List Char} {L : List (List Char)}
    (hx : x ≠ []) : pyJoin sep (x :: L) ≠ [] := by
  cases L with
  | nil => simpa [pyJoin] using hx
  | cons y ys => simp [pyJoin]

theorem dropWhile_dropWhile {α : Type} (p : α → Bool) (l : List α) :
    (l.dropWhile p).dropWhile p = l.dropWhile p := by
  cases h : l.dropWhile p with
  | nil => rfl
  | cons a t =>
    have hp : p a = false := by
      have hh := List.head?_dropWhile_not p l
      rw [h] at hh
      exact hh
    simp [List.dropWhile_cons, hp]

theorem head?_lstrip_false {l : List Char} {a : Char}
    (h : (lstrip l).head? = some a) : wsB a = false := by
  have hh := List.head?_dropWhile_not wsB l
  rw [show l.dropWhile wsB = lstrip l from rfl, h] at hh
  exact hh

theorem lstrip_eq_self {l : List Char}
    (h : ∀ a, l.head? = some a → wsB a = false) : lstrip l = l := by
  cases l with
  | nil => rfl
  | cons c cs =>
    have hc := h c rfl
    simp [lstrip, List.dropWhile_cons, hc]

theorem rstrip_rstrip (l : List Char) : rstrip (rstrip l) = rstrip l := by
  simp only [rstrip, List.reverse_reverse, dropWhile_dropWhile]

theorem head?_pyStrip_false {l : List Char} {a : Char}
    (h : (pyStrip l).head? = some a) : wsB a = false := by
  rw [pyStrip, rstrip, List.head?_reverse] at h
  rcases hy : (lstrip l).reverse.dropWhile wsB with _ | ⟨b, t⟩
  · rw [hy] at h
    cases h
  · have hy' : (lstrip l).reverse.dropWhile wsB ≠ [] := by rw [hy]; simp
    obtain ⟨w, hw⟩ := List.dropWhile_suffix (l := (lstrip l).reverse) wsB
    have hlast : ((lstrip l).reverse.dropWhile wsB).getLast? = (lstrip l).reverse.getLast? := by
      conv_rhs => rw [← hw]
      rw [List.getLast?_append_of_ne_nil _ hy']
    rw [hlast, List.getLast?_reverse] at h
    exact head?_lstrip_false h

theorem lstrip_pyStrip (l : List Char) : lstrip (pyStrip l) = pyStrip l :=
  lstrip_eq_self (fun a h => head?_pyStrip_false h)

theorem pyStrip_idem (l : List Char) : pyStrip (pyStrip l) = pyStrip l := by
  conv_lhs => rw [pyStrip, lstrip_pyStrip, pyStrip, rstrip_rstrip]
  rfl

theorem mem_of_mem_pyStrip {c : Char} {l : List Char} (h : c ∈ pyStrip l) : c ∈ l := by
  rw [pyStrip, rstrip, List.mem_reverse] at h
  have h2 := (List.dropWhile_sublist wsB).mem h
  rw [List.mem_reverse] at h2
  exact (List.dropWhile_sublist wsB).mem h2

theorem mem_cleanList {s : Str} {L : List Str} (h : s ∈ cleanList L) :
    ∃ t ∈ L, s = pyStrip t ∧ s ≠ [] := by
  rw [cleanList, List.mem_map] at h
  obtain ⟨t, ht, rfl⟩ := h
  rw [List.mem_filter] at ht
  refine ⟨t, ht.1, rfl, ?_⟩
  simpa using ht.2

/-- The codec round trip for comma-free entries: decoding the encoded form
of a tag sequence gives back the trimmed, blank-filtered sequence. -/
theorem decode_encode (L : List Str) (h : ∀ t ∈ L, ',' ∉ t) :
    decodeTags (encodeTags L) = cleanList L := by
  have hmem : ∀ s ∈ cleanList L, ',' ∉ s := by
    intro s hs hc
    obtain ⟨t, ht, rfl, _⟩ := mem_cleanList hs
    exact h t ht (mem_of_mem_pyStrip hc)
  rw [decodeTags, encodeTags]
  cases hC : cleanList L with
  | nil => simp [pyJoin]
  | cons x xs =>
    have hx : x ≠ [] := by
      obtain ⟨t, _, _, hne⟩ := mem_cleanList (hC ▸ List.mem_cons_self x xs)
      exact hne
    rw [if_neg (pyJoin_cons_ne_nil hx)]
    exact pySplit_pyJoin (by simp) (hC ▸ hmem)

/-- Every string written by the form-side tag cleanup satisfies the
no-empty-segment invariant. -/
theorem tagStrClean_cleanTagsStr (s : Str) : TagStrClean (cleanTagsStr s) := by
  have h := decode_encode (pySplit ',' s) (fun t ht => not_mem_of_mem_pySplit ht)
  rw [decodeTags] at h
  rw [cleanTagsStr]
  by_cases hn : encodeTags (pySplit ',' s) = []
  · exact Or.inl hn
  · rw [if_neg hn] at h
    refine Or.inr (fun seg hseg => ?_)
    rw [h] at hseg
    obtain ⟨t, _, he, hne⟩ := mem_cleanList hseg
    exact ⟨hne, by rw [he, pyStrip_idem]⟩

/-- `strContains` is exactly the substring (infix) test. -/
theorem strContains_iff (hay needle : Str) :
    strContains hay needle = true ↔ needle <:+: hay := by
  induction hay with
  | nil =>
    simp [strContains]
  | cons c t ih =>
    rw [strContains]
    simp [List.isPrefixOf_iff_prefix, ih, List.infix_cons_iff]

/-! ### Lemmas about the tag tally -/

theorem lookupCount_nil (t : Str) : lookupCount [] t = 0 := rfl

theorem lookupCount_cons (k : Str) (v : Nat) (rest : List (Str × Nat)) (t : Str) :
    lookupCount ((k, v) :: rest) t = if k = t then v else lookupCount rest t := by
  by_cases h : k = t
  · subst h
    simp [lookupCount, List.find?]
  · have hk : (k == t) = false := by simp [h]
    simp only [lookupCount, List.find?_cons, hk]
    rw [if_neg h]

theorem lookupCount_tallyInsert_self (m : List (Str × Nat)) (t : Str) :
    lookupCount (tallyInsert m t) t = lookupCount m t + 1 := by
  induction m with
  | nil => simp [tallyInsert, lookupCount_cons, lookupCount_nil]
  | cons p rest ih =>
    obtain ⟨k, v⟩ := p
    by_cases h : k = t
    · subst h
      simp [tallyInsert, lookupCount_cons]
    · rw [tallyInsert, if_neg h, lookupCount_cons, if_neg h, lookupCount_cons,
        if_neg h, ih]

theorem lookupCount_tallyInsert_ne (m : List (Str × Nat)) {t t' : Str}
    (h : t' ≠ t) : lookupCount (tallyInsert m t) t' = lookupCount m t' := by
  induction m with
  | nil => simp [tallyInsert, lookupCount_cons, lookupCount_nil, Ne.symm h]
  | cons p rest ih =>
    obtain ⟨k, v⟩ := p
    by_cases hk : k = t
    · subst hk
      rw [tallyInsert, if_pos rfl, lookupCount_cons, lookupCount_cons]
      simp [Ne.symm h]
    · rw [tallyInsert, if_neg hk, lookupCount_cons, lookupCount_cons, ih]

theorem lookupCount_foldl (ts : List Str) (m : List (Str × Nat)) (t : Str) :
    lookupCount (ts.foldl tallyInsert m) t = lookupCount m t + ts.count t := by
  induction ts generalizing m with
  | nil => simp
  | cons s rest ih =>
    rw [List.foldl_cons, ih]
    by_cases h : s = t
    · subst h
      rw [lookupCount_tallyInsert_self, List.count_cons_self]
      omega
    · rw [lookupCount_tallyInsert_ne _ (Ne.symm h),
        List.count_cons_of_ne (by simpa using Ne.symm h)]

theorem keys_tallyInsert (m : List (Str × Nat)) (t : Str) :
    (tallyInsert m t).map Prod.fst = m.map Prod.fst ∨
    (tallyInsert m t).map Prod.fst = m.map Prod.fst ++ [t] ∧ t ∉ m.map Prod.fst := by
  induction m with
  | nil => simp [tallyInsert]
  | cons p rest ih =>
    obtain ⟨k, v⟩ := p
    by_cases h : k = t
    · subst h
      left
      simp [tallyInsert]
    · rcases ih with ih | ⟨ih1, ih2⟩
      · left
        simp [tallyInsert, if_neg h, ih]
      · right
        constructor
        · simp [tallyInsert, if_neg h, ih1]
        · simp only [List.map_cons, List.mem_cons]
          rintro (e | hm)
          · exact h e.symm
          · exact ih2 hm

theorem keysNodup_tallyInsert {m : List (Str × Nat)}
    (h : (m.map Prod.fst).Nodup) (t : Str) :
    ((tallyInsert m t).map Prod.fst).Nodup := by
  rcases keys_tallyInsert m t with hk | ⟨hk, hni⟩
  · rw [hk]; exact h
  · rw [hk]
    simp [List.nodup_append, h, hni]

theorem keysNodup_foldl (ts : List Str) (m : List (Str × Nat))
    (h : (m.map Prod.fst).Nodup) :
    ((ts.foldl tallyInsert m).map Prod.fst).Nodup := by
  induction ts generalizing m with
  | nil => exact h
  | cons s rest ih =>
    rw [List.foldl_cons]
    exact ih _ (keysNodup_tallyInsert h s)

theorem lookupCount_of_mem : ∀ {m : List (Str × Nat)},
    (m.map Prod.fst).Nodup → ∀ {t : Str} {c : Nat}, (t, c) ∈ m → lookupCount m t = c
  | [], _, _, _, h => absurd h (List.not_mem_nil _)
  | (k, v) :: rest, hnd, t, c, h => by
    have hnd' := List.nodup_cons.mp hnd
    rcases List.mem_cons.mp h with he | hm
    · cases he
      rw [lookupCount_cons, if_pos rfl]
    · have hk : ¬(k = t) := by
        intro e
        subst e
        exact hnd'.1 (List.mem_map.mpr ⟨(k, c), hm, rfl⟩)
      rw [lookupCount_cons, if_neg hk]
      exact lookupCount_of_mem hnd'.2 hm

theorem mem_of_lookupCount_pos {m : List (Str × Nat)} {t : Str}
    (h : 0 < lookupCount m t) : (t, lookupCount m t) ∈ m := by
  cases hf : m.find? (fun p => p.1 == t) with
  | none =>
    simp [lookupCount, hf] at h
  | some p =>
    have hm := List.mem_of_find?_eq_some hf
    have hp := List.find?_some hf
    obtain ⟨a, b⟩ := p
    have ha : a = t := by simpa using hp
    subst ha
    have hv : lookupCount m a = b := by simp [lookupCount, hf]
    rw [hv]
    exact hm

theorem foldl_flatten_eq : ∀ (bs : List Bookmark) (m : List (Str × Nat)),
    bs.foldl (fun m b => (bookmarkTagList b).foldl tallyInsert m) m
      = ((bs.map bookmarkTagList).flatten).foldl tallyInsert m
  | [], m => rfl
  | b :: bs, m => by
    rw [List.foldl_cons, foldl_flatten_eq bs, List.map_cons, List.flatten_cons,
      List.foldl_append]

theorem lookupCount_tallyStore (st : Store) (t : Str) :
    lookupCount (tallyStore st) t = (allTags st).count t := by
  rw [tallyStore, foldl_flatten_eq, ← allTags, lookupCount_foldl]
  simp [lookupCount, List.find?]

theorem keysNodup_tallyStore (st : Store) :
    ((tallyStore st).map Prod.fst).Nodup := by
  rw [tallyStore, foldl_flatten_eq]
  exact keysNodup_foldl _ _ (by simp)

/-! ### Lemmas about search and update -/

theorem search_core_mem (tag? title? q? : Option Str) (st : Store)
    (l : List Bookmark) (b : Bookmark)
    (h : search_core tag? title? q? st = some l) :
    b ∈ l ↔ b ∈ st.bookmarks ∧
      (truthy tag? = true → tagFilter (tag?.getD []) b = true) ∧
      (truthy title? = true → titleFilter (title?.getD []) b = true) ∧
      (truthy q? = true → qFilter (q?.getD []) b = true) := by
  rw [search_core] at h
  by_cases h1 : truthy tag? = true <;> by_cases h2 : truthy title? = true <;>
    by_cases h3 : truthy q? = true <;>
    simp only [h1, h2, h3, Bool.or_self, Bool.or_true, Bool.true_or,
      Bool.or_false, Bool.false_or, if_true, if_false, Option.some.injEq,
      Bool.not_eq_true] at h <;>
    (try subst h) <;> simp_all [List.mem_filter] <;> tauto

theorem find?_map_update (l : List Bookmark) (i : Nat) (f : Bookmark → Bookmark)
    (hf : ∀ b, (f b).id = b.id) :
    (l.map (fun b => if b.id == i then f b else b)).find? (fun b => b.id == i)
      = (l.find? (fun b => b.id == i)).map f := by
  induction l with
  | nil => rfl
  | cons a t ih =>
    by_cases h : (a.id == i) = true
    · have hfb : ((f a).id == i) = true := by rw [hf a]; exact h
      rw [List.map_cons, if_pos h]
      simp only [List.find?_cons]
      rw [hfb, h]
      simp [Option.map_some]
    · have hb : (a.id == i) = false := by simpa using h
      rw [List.map_cons, if_neg h]
      simp only [List.find?_cons]
      rw [hb, ih]

/-! ### The claims -/

/-- C1, as stated, is false: the round-trip equation
`decode (encode T) = cleanList T` fails when a tag entry contains a comma —
encoding `["a,b"]` stores `"a,b"`, which decodes to the two tags
`["a", "b"]`, not to `["a,b"]`. -/
theorem c1_counterexample :
    cleanList [str "a,b"] = [str "a,b"] ∧
    decodeTags (encodeTags [str "a,b"]) = [str "a", str "b"] ∧
    decodeTags (encodeTags [str "a,b"]) ≠ cleanList [str "a,b"] := by
  refine ⟨by decide, by decide, by decide⟩

/-- C1 (amended): for every tag sequence whose entries contain no comma,
`decode (encode T)` equals `T` with empty/whitespace-only entries removed
and the remaining entries trimmed, in original order. -/
theorem c1_tag_codec_round_trip (T : List Str) (h : ∀ t ∈ T, ',' ∉ t) :
    decodeTags (encodeTags T) = cleanList T :=
  decode_encode T h

/-- Witness for C1 at a concrete comma-free tag sequence. -/
theorem c1_witness :
    decodeTags (encodeTags [str " python ", str "  ", str "web"])
      = [str "python", str "web"] := by
  rw [c1_tag_codec_round_trip [str " python ", str "  ", str "web"] (by decide)]
  decide

/-- C2: a create request (JSON API or HTML form) with an empty or missing
`url` or `title` fails with the validation error — distinguishable from
`notFound` — and leaves the store exactly as it was. -/
theorem c2_create_validation (st : Store) (url? title? : Option Str)
    (tagsA : Option (List Str)) (tagsF : Option Str)
    (h : truthy url? = false ∨ truthy title? = false) :
    api_add_bookmark st url? title? tagsA = (.error .validation, st) ∧
    add_page st url? title? tagsF = (.error .validation, st) ∧
    Err.validation ≠ Err.notFound := by
  refine ⟨?_, ?_, by decide⟩ <;>
    rcases h with h | h <;> simp [api_add_bookmark, add_page, h]

/-- Witness for C2: an empty url is rejected by both create paths. -/
theorem c2_witness :
    api_add_bookmark ⟨[], 1⟩ (some []) (some (str "T")) (some [str "x"])
      = (.error .validation, ⟨[], 1⟩) ∧
    add_page ⟨[], 1⟩ (some []) (some (str "T")) none
      = (.error .validation, ⟨[], 1⟩) ∧
    Err.validation ≠ Err.notFound :=
  c2_create_validation ⟨[], 1⟩ (some []) (some (str "T")) (some [str "x"]) none
    (Or.inl (by decide))

/-- C3, as stated, is false: the JSON API create (app.py:155) joins the
request's tag list verbatim, so `["a", "", "b"]` persists as `"a,,b"`,
whose comma segments include the empty segment. -/
theorem c3_counterexample :
    (api_add_bookmark ⟨[], 1⟩ (some (str "u")) (some (str "t"))
        (some [str "a", str "", str "b"])).2.bookmarks.map Bookmark.tags
      = [str "a,,b"] ∧
    [] ∈ pySplit ',' (str "a,,b") := by
  refine ⟨by decide, by decide⟩

/-- C3 (amended): after the HTML-form create and the HTML edit, every record
that was written by the call has a tag string with no empty segment — each
comma-separated segment is a non-empty trimmed string (records untouched by
the call are simply still members of the previous store). -/
theorem c3_html_tag_invariant (st : Store) (u t g : Option Str) (i : Nat) :
    (∀ b ∈ (add_page st u t g).2.bookmarks,
      b ∈ st.bookmarks ∨ TagStrClean b.tags) ∧
    (∀ b ∈ (edit_page st i u t g).2.bookmarks,
      b ∈ st.bookmarks ∨ TagStrClean b.tags) := by
  constructor
  · intro b hb
    rw [add_page] at hb
    by_cases hv : (!truthy u || !truthy t) = true
    · rw [if_pos hv] at hb
      exact Or.inl hb
    · rw [if_neg hv] at hb
      simp only [List.mem_append, List.mem_singleton] at hb
      rcases hb with hb | hb
      · exact Or.inl hb
      · subst hb
        exact Or.inr (tagStrClean_cleanTagsStr _)
  · intro b hb
    unfold edit_page at hb
    rcases hg : getById st i with _ | b0
    · rw [hg] at hb
      exact Or.inl hb
    · rcases u with _ | u
      · rw [hg] at hb
        exact Or.inl hb
      · rcases t with _ | t
        · rw [hg] at hb
          exact Or.inl hb
        · rw [hg] at hb
          simp only [List.mem_map] at hb
          obtain ⟨a, ha, rfl⟩ := hb
          by_cases hid : (a.id == i) = true
          · rw [if_pos hid]
            exact Or.inr (tagStrClean_cleanTagsStr _)
          · rw [if_neg hid]
            exact Or.inl ha

/-- Witness for C3 at a concrete form create with messy tags. -/
theorem c3_witness : TagStrClean (str "x,y") := by
  have h := (c3_html_tag_invariant ⟨[], 1⟩ (some (str "u")) (some (str "t"))
    (some (str " x ,, y ")) 0).1 ⟨1, str "u", str "t", str "x,y"⟩ (by decide)
  rcases h with h | h
  · exact absurd h (by decide)
  · exact h

/-- C4, as stated, is false: the HTML edit is not a partial patch.  A patch
whose only key is `title` assigns `None` to the NOT NULL `url` column, so
the call fails at commit and the record's title is NOT set to the new
value (and a patch omitting `tags` would wipe the tags to empty rather
than keep them). -/
theorem c4_counterexample :
    edit_page ⟨[⟨1, str "http://x.com", str "X", str "python"⟩], 2⟩ 1
        none (some (str "Y")) none
      = (.error .nullViolation,
          ⟨[⟨1, str "http://x.com", str "X", str "python"⟩], 2⟩) ∧
    (edit_page ⟨[⟨1, str "http://x.com", str "X", str "python"⟩], 2⟩ 1
        none (some (str "Y")) none).2.bookmarks.map Bookmark.title
      ≠ [str "Y"] := by
  refine ⟨by decide, by decide⟩

/-- C4 (amended): the edit overwrites all three fields with the supplied
form values (missing `url`/`title` fail the commit; missing `tags` is
treated as empty).  Hence a call that re-supplies the record's current
`url` and current (already clean) `tags` together with a new title `X`
succeeds, leaves `url` and `tags` unchanged, sets `title` to `X`, and
leaves every other record untouched. -/
theorem c4_update_frame (st : Store) (i : Nat) (b : Bookmark) (X : Str)
    (hb : getById st i = some b) (hclean : cleanTagsStr b.tags = b.tags) :
    (edit_page st i (some b.url) (some X) (some b.tags)).1 = .ok () ∧
    getById (edit_page st i (some b.url) (some X) (some b.tags)).2 i
      = some ⟨b.id, b.url, X, b.tags⟩ ∧
    ∀ x ∈ st.bookmarks, x.id ≠ i →
      x ∈ (edit_page st i (some b.url) (some X) (some b.tags)).2.bookmarks := by
  have hmain : edit_page st i (some b.url) (some X) (some b.tags)
      = (.ok (), { st with bookmarks := st.bookmarks.map (fun x =>
          if x.id == i then
            { x with url := b.url, title := X, tags := cleanTagsStr ((some b.tags).getD []) }
          else x) }) := by
    unfold edit_page
    rw [hb]
  refine ⟨by rw [hmain], ?_, ?_⟩
  · rw [hmain, getById]
    rw [getById] at hb
    dsimp only
    rw [find?_map_update st.bookmarks i
        (fun x => { x with url := b.url, title := X, tags := cleanTagsStr ((some b.tags).getD []) })
        (fun _ => rfl),
      hb, Option.map_some']
    show some (Bookmark.mk b.id b.url X (cleanTagsStr b.tags))
      = some (Bookmark.mk b.id b.url X b.tags)
    rw [hclean]
  · intro x hx hne
    rw [hmain]
    refine List.mem_map.mpr ⟨x, hx, ?_⟩
    simp [show (x.id == i) = false by simpa using hne]

/-- Witness for C4 at a concrete store. -/
theorem c4_witness :
    (edit_page ⟨[⟨1, str "u", str "Old", str "python"⟩], 2⟩ 1
        (some (str "u")) (some (str "New")) (some (str "python"))).1 = .ok () ∧
    getById (edit_page ⟨[⟨1, str "u", str "Old", str "python"⟩], 2⟩ 1
        (some (str "u")) (some (str "New")) (some (str "python"))).2 1
      = some ⟨1, str "u", str "New", str "python"⟩ ∧
    ∀ x ∈ [(⟨1, str "u", str "Old", str "python"⟩ : Bookmark)], x.id ≠ 1 →
      x ∈ (edit_page ⟨[⟨1, str "u", str "Old", str "python"⟩], 2⟩ 1
        (some (str "u")) (some (str "New")) (some (str "python"))).2.bookmarks :=
  c4_update_frame ⟨[⟨1, str "u", str "Old", str "python"⟩], 2⟩ 1
    ⟨1, str "u", str "Old", str "python"⟩ (str "New") (by decide) (by decide)

/-- C5: `get` (the edit page's lookup), `update` (HTML edit), and both
deletes, addressed to an id for which no record exists, all yield
`notFound` and leave the store unchanged. -/
theorem c5_not_found (st : Store) (i : Nat) (u t g : Option Str)
    (h : getById st i = none) :
    edit_page_get st i = .error .notFound ∧
    edit_page st i u t g = (.error .notFound, st) ∧
    api_delete_bookmark st i = (.error .notFound, st) ∧
    delete_bookmark_form st i = (.error .notFound, st) := by
  unfold edit_page_get edit_page api_delete_bookmark delete_bookmark_form
  rw [h]
  exact ⟨rfl, rfl, rfl, rfl⟩

/-- Witness for C5: id 5 was never issued on an empty store. -/
theorem c5_witness :
    edit_page_get ⟨[], 1⟩ 5 = .error .notFound ∧
    edit_page ⟨[], 1⟩ 5 (some (str "u")) (some (str "t")) none
      = (.error .notFound, ⟨[], 1⟩) ∧
    api_delete_bookmark ⟨[], 1⟩ 5 = (.error .notFound, ⟨[], 1⟩) ∧
    delete_bookmark_form ⟨[], 1⟩ 5 = (.error .notFound, ⟨[], 1⟩) :=
  c5_not_found ⟨[], 1⟩ 5 (some (str "u")) (some (str "t")) none (by decide)

/-- C6: whenever `search_page` actually runs a search (result `some l`),
a record is in the result iff it is stored and every provided filter
matches it: the `tag` filter is a plain substring test on the raw encoded
tag string, the `title` filter a case-insensitive substring test on the
title, and the `q` filter an OR of case-insensitive substring tests on the
tag string, the title and the url — AND-ed with the other filters. -/
theorem c6_search_match (tag? title? q? : Option Str) (st : Store)
    (l : List Bookmark) (b : Bookmark)
    (h : search_core tag? title? q? st = some l) :
    b ∈ l ↔ b ∈ st.bookmarks ∧
      (truthy tag? = true → (tag?.getD []) <:+: b.tags) ∧
      (truthy title? = true → pyLower (title?.getD []) <:+: pyLower b.title) ∧
      (truthy q? = true →
        (pyLower (q?.getD []) <:+: pyLower b.tags ∨
         pyLower (q?.getD []) <:+: pyLower b.title ∨
         pyLower (q?.getD []) <:+: pyLower b.url)) := by
  rw [search_core_mem tag? title? q? st l b h]
  simp only [tagFilter, titleFilter, qFilter, strContains_iff, Bool.or_eq_true]
  tauto

/-- Witness for C6: the filter `tag=py` over a one-record store. -/
theorem c6_witness :
    (⟨1, str "u", str "T", str "python"⟩ : Bookmark)
        ∈ [(⟨1, str "u", str "T", str "python"⟩ : Bookmark)] ↔
      (⟨1, str "u", str "T", str "python"⟩ : Bookmark)
          ∈ (⟨[⟨1, str "u", str "T", str "python"⟩], 2⟩ : Store).bookmarks ∧
        (truthy (some (str "py")) = true →
          ((some (str "py")).getD [])
            <:+: (⟨1, str "u", str "T", str "python"⟩ : Bookmark).tags) ∧
        (truthy (none : Option Str) = true →
          pyLower ((none : Option Str).getD [])
            <:+: pyLower (⟨1, str "u", str "T", str "python"⟩ : Bookmark).title) ∧
        (truthy (none : Option Str) = true →
          (pyLower ((none : Option Str).getD [])
              <:+: pyLower (⟨1, str "u", str "T", str "python"⟩ : Bookmark).tags ∨
           pyLower ((none : Option Str).getD [])
              <:+: pyLower (⟨1, str "u", str "T", str "python"⟩ : Bookmark).title ∨
           pyLower ((none : Option Str).getD [])
              <:+: pyLower (⟨1, str "u", str "T", str "python"⟩ : Bookmark).url)) :=
  c6_search_match (some (str "py")) none none
    ⟨[⟨1, str "u", str "T", str "python"⟩], 2⟩
    [⟨1, str "u", str "T", str "python"⟩]
    ⟨1, str "u", str "T", str "python"⟩ (by decide)

/-- C7, as stated, is false: `search_page` never reads a `url` parameter.
A call that provides only `url=http` against a store whose single record's
url contains `"http"` yields the no-search state (no result list at all),
even though the claimed url clause matches the record. -/
theorem c7_counterexample :
    search_page [(str "url", str "http")]
        ⟨[⟨1, str "http://x.com", str "X", str "python"⟩], 2⟩ = none ∧
    strContains (pyLower (str "http://x.com")) (pyLower (str "http")) = true := by
  refine ⟨by decide, by decide⟩

/-- C7 (amended): the HTML search accepts no `url` filter — a `url`
request parameter is simply ignored, and urls are matched only through the
`q` filter's disjunction (established by C6). -/
theorem c7_url_param_ignored (args : List (Str × Str)) (st : Store) (u : Str) :
    search_page ((str "url", u) :: args) st = search_page args st := by
  have h : ∀ k : Str, (str "url" == k) = false →
      argsGet ((str "url", u) :: args) k = argsGet args k := by
    intro k hk
    simp only [argsGet, List.find?_cons, hk]
  rw [search_page, search_page, h _ (by decide), h _ (by decide), h _ (by decide)]

/-- C9: an HTML search call that provides none of `tag`, `title`, `q`
yields the distinct "no search performed" state `none`, which differs both
from the empty result list and from the full record list. -/
theorem c9_no_search_state (args : List (Str × Str)) (st : Store)
    (h1 : argsGet args (str "tag") = none)
    (h2 : argsGet args (str "title") = none)
    (h3 : argsGet args (str "q") = none) :
    search_page args st = none ∧
    search_page args st ≠ some [] ∧
    search_page args st ≠ some st.bookmarks := by
  have h : search_page args st = none := by
    rw [search_page, h1, h2, h3]
    rfl
  exact ⟨h, by rw [h]; exact fun hc => Option.noConfusion hc,
    by rw [h]; exact fun hc => Option.noConfusion hc⟩

/-- Witness for C9: an empty parameter list over a one-record store. -/
theorem c9_witness :
    search_page [] ⟨[⟨1, str "u", str "t", str "x"⟩], 2⟩ = none ∧
    search_page [] ⟨[⟨1, str "u", str "t", str "x"⟩], 2⟩ ≠ some [] ∧
    search_page [] ⟨[⟨1, str "u", str "t", str "x"⟩], 2⟩
      ≠ some (⟨[⟨1, str "u", str "t", str "x"⟩], 2⟩ : Store).bookmarks :=
  c9_no_search_state [] ⟨[⟨1, str "u", str "t", str "x"⟩], 2⟩ rfl rfl rfl

/-- C10: an empty-string filter value behaves exactly like an absent
filter — replacing any of the three parameters' value `""` by "absent"
never changes the search result, and a call whose every supplied filter is
the empty string yields the "no search performed" state. -/
theorem c10_empty_filters_are_absent :
    (∀ (t? q? : Option Str) (st : Store),
      search_core (some []) t? q? st = search_core none t? q? st) ∧
    (∀ (g? q? : Option Str) (st : Store),
      search_core g? (some []) q? st = search_core g? none q? st) ∧
    (∀ (g? t? : Option Str) (st : Store),
      search_core g? t? (some []) st = search_core g? t? none st) ∧
    (∀ st : Store,
      search_page [(str "tag", []), (str "title", []), (str "q", [])] st
        = none) :=
  ⟨fun _ _ _ => rfl, fun _ _ _ => rfl, fun _ _ _ => rfl, fun _ => rfl⟩

theorem keys_tallyInsert_eq (m : List (Str × Nat)) (t : Str) :
    (tallyInsert m t).map Prod.fst
      = if t ∈ m.map Prod.fst then m.map Prod.fst
        else m.map Prod.fst ++ [t] := by
  induction m with
  | nil => simp [tallyInsert]
  | cons p rest ih =>
    obtain ⟨k, v⟩ := p
    by_cases h : k = t
    · subst h
      simp [tallyInsert]
    · rw [tallyInsert, if_neg h]
      simp only [List.map_cons]
      rw [ih]
      by_cases hm : t ∈ rest.map Prod.fst
      · rw [if_pos hm, if_pos (List.mem_cons_of_mem k hm)]
      · rw [if_neg hm,
          if_neg (by simp [List.mem_cons, hm, Ne.symm h]),
          List.cons_append]

theorem keys_foldl_tallyInsert (ts : List Str) (m : List (Str × Nat)) :
    (ts.foldl tallyInsert m).map Prod.fst
      = ts.foldl seenInsert (m.map Prod.fst) := by
  induction ts generalizing m with
  | nil => rfl
  | cons s rest ih =>
    rw [List.foldl_cons, List.foldl_cons, ih, keys_tallyInsert_eq, seenInsert]

/-- The tally lists each distinct tag at the position of its first
occurrence across the decoded record tag lists. -/
theorem keys_tallyStore_firstOcc (st : Store) :
    (tallyStore st).map Prod.fst = firstOccurrences (allTags st) := by
  rw [tallyStore, foldl_flatten_eq, ← allTags, keys_foldl_tallyInsert]
  rfl

/-- C8: `get_tags_with_counts` tallies one count per occurrence of each
distinct tag name across all decoded record tag lists, returns only names
that occur, and sorts the pairs descending by count with a stable sort
keyed only on the count: any two entries with equal counts keep the
relative order they have in the tally, and the tally lists names in
first-encountered order.  In particular it yields
`[("python", 2), ("web", 1)]` over records tagged `["python"]` and
`["python", "web"]`, and `[("zeta", 1), ("alpha", 1)]` — first-encountered
order, not alphabetical — over records tagged `["zeta"]` and `["alpha"]`. -/
theorem c8_tag_counts (st : Store) :
    (∀ p ∈ get_tags_with_counts st, p.2 = (allTags st).count p.1) ∧
    (∀ t : Str, t ∈ allTags st →
      (t, (allTags st).count t) ∈ get_tags_with_counts st) ∧
    (get_tags_with_counts st).Pairwise (fun a b => b.2 ≤ a.2) ∧
    (∀ p q : Str × Nat, p.2 = q.2 → List.Sublist [p, q] (tallyStore st) →
      List.Sublist [p, q] (get_tags_with_counts st)) ∧
    (tallyStore st).map Prod.fst = firstOccurrences (allTags st) ∧
    get_tags_with_counts
        ⟨[⟨1, str "u1", str "t1", str "python"⟩,
          ⟨2, str "u2", str "t2", str "python,web"⟩], 3⟩
      = [(str "python", 2), (str "web", 1)] ∧
    get_tags_with_counts
        ⟨[⟨1, str "u1", str "t1", str "zeta"⟩,
          ⟨2, str "u2", str "t2", str "alpha"⟩], 3⟩
      = [(str "zeta", 1), (str "alpha", 1)] := by
  have htrans : ∀ (a b c : Str × Nat),
      decide (b.2 ≤ a.2) = true → decide (c.2 ≤ b.2) = true →
      decide (c.2 ≤ a.2) = true := by
    intro a b c h1 h2
    simp only [decide_eq_true_eq] at h1 h2 ⊢
    omega
  have htotal : ∀ (a b : Str × Nat),
      (decide (b.2 ≤ a.2) || decide (a.2 ≤ b.2)) = true := by
    intro a b
    simp only [Bool.or_eq_true, decide_eq_true_eq]
    omega
  refine ⟨?_, ?_, ?_, ?_, keys_tallyStore_firstOcc st, ?_, ?_⟩
  · intro p hp
    rw [get_tags_with_counts, List.mem_mergeSort] at hp
    obtain ⟨t, c⟩ := p
    have hl := lookupCount_of_mem (keysNodup_tallyStore st) hp
    rw [lookupCount_tallyStore] at hl
    exact hl.symm
  · intro t ht
    have hpos : 0 < lookupCount (tallyStore st) t := by
      rw [lookupCount_tallyStore]
      exact List.count_pos_iff.mpr ht
    have hm := mem_of_lookupCount_pos hpos
    rw [lookupCount_tallyStore] at hm
    rw [get_tags_with_counts, List.mem_mergeSort]
    exact hm
  · have hs := List.sorted_mergeSort htrans htotal (tallyStore st)
    rw [get_tags_with_counts]
    exact hs.imp (fun h => by simpa using h)
  · intro p q hpq hsub
    rw [get_tags_with_counts]
    exact List.pair_sublist_mergeSort htrans htotal (by simp [hpq]) hsub
  · rw [get_tags_with_counts, show tallyStore
        ⟨[⟨1, str "u1", str "t1", str "python"⟩,
          ⟨2, str "u2", str "t2", str "python,web"⟩], 3⟩
      = [(str "python", 2), (str "web", 1)] from by decide]
    exact List.mergeSort_of_sorted (by decide)
  · rw [get_tags_with_counts, show tallyStore
        ⟨[⟨1, str "u1", str "t1", str "zeta"⟩,
          ⟨2, str "u2", str "t2", str "alpha"⟩], 3⟩
      = [(str "zeta", 1), (str "alpha", 1)] from by decide]
    exact List.mergeSort_of_sorted (by decide)

/-- Witness for C8: "python" is counted twice across the two records, and
the tied pair keeps its tally order in the sorted output. -/
theorem c8_witness :
    (2 : Nat) = (allTags ⟨[⟨1, str "u1", str "t1", str "python"⟩,
      ⟨2, str "u2", str "t2", str "python,web"⟩], 3⟩).count (str "python") ∧
    List.Sublist [((str "zeta", 1) : Str × Nat), (str "alpha", 1)]
      (get_tags_with_counts
        ⟨[⟨1, str "u1", str "t1", str "zeta"⟩,
          ⟨2, str "u2", str "t2", str "alpha"⟩], 3⟩) := by
  constructor
  · have h := c8_tag_counts ⟨[⟨1, str "u1", str "t1", str "python"⟩,
      ⟨2, str "u2", str "t2", str "python,web"⟩], 3⟩
    exact h.1 (str "python", 2) (by rw [h.2.2.2.2.2.1]; decide)
  · have h := c8_tag_counts ⟨[⟨1, str "u1", str "t1", str "zeta"⟩,
      ⟨2, str "u2", str "t2", str "alpha"⟩], 3⟩
    exact h.2.2.2.1 (str "zeta", 1) (str "alpha", 1) rfl (by decide)
